import Mathlib

/-!
# saptune: parameter value primitives and reconciliation helpers

A shallow embedding of the pure parts of the saptune sources:

* `sap/param/param.go`: the variadic numeric helpers `MaxI64`, `MaxI`,
  `MaxU64`, `MinU64`;
* `system/daemon.go`: the decision made by `IsSystemRunning` on the text
  printed by `systemctl is-system-running`, the profile `GetTunedAdmProfile`
  reads from the result of `tuned-adm active`, and the `systemctl` calls of
  `SystemctlEnable`, `SystemctlStart` and `SystemctlEnableStart`, run on a
  host that is passed as explicit state together with the commands run so far;
* the per-kind optimisers exercised by `sap/note/ini_sections_test.go`.

Go's `intN` values are integers (`Int`), `uintN` values are naturals (`Nat`)
below `2 ^ N`; the loops of `param.go` only compare and assign, so no
wrap-around occurs in them.  A Go `string` is a list of runes (`List Char`), a variadic
argument list `values ...T` is a `List T`, and `for _, v := range values`
is a left fold over that list.
-/

namespace Saptune

/-! ## `sap/param/param.go` -/

/-- Largest value of Go's `uint64`, `math.MaxUint64`. -/
def MaxUint64 : Nat := 2 ^ 64 - 1

/-- Body of the loop shared by `MaxI64` and `MaxI`:
`if ret < value { ret = value }`. -/
def maxStepI (ret value : Int) : Int := if ret < value then value else ret

/-- Body of the loop of `MaxU64`: `if ret < value { ret = value }`. -/
def maxStepU (ret value : Nat) : Nat := if ret < value then value else ret

/-- Body of the loop of `MinU64`: `if ret > value { ret = value }`. -/
def minStepU (ret value : Nat) : Nat := if ret > value then value else ret

/-- Go `MaxI64(values ...int64) int64`: `var ret int64` starts at zero and
the loop raises it to every larger input. -/
def MaxI64 (values : List Int) : Int := values.foldl maxStepI 0

/-- Go `MaxI(values ...int) int`: the same loop over `int`. -/
def MaxI (values : List Int) : Int := values.foldl maxStepI 0

/-- Go `MaxU64(values ...uint64) uint64`. -/
def MaxU64 (values : List Nat) : Nat := values.foldl maxStepU 0

/-- Go `MinU64(values ...uint64) uint64`: zero without input, otherwise the
loop starts at `math.MaxUint64` and lowers `ret` to every smaller input. -/
def MinU64 (values : List Nat) : Nat :=
  if values.length = 0 then 0 else values.foldl minStepU MaxUint64

/-! ## Go `strings` primitives used by the sources -/

/-- Go `unicode.IsSpace`: the runes with the Unicode White_Space property. -/
def isSpace (c : Char) : Bool :=
  let n := c.toNat
  (0x09 ≤ n && n ≤ 0x0D) || n == 0x20 || n == 0x85 || n == 0xA0 || n == 0x1680 ||
    (0x2000 ≤ n && n ≤ 0x200A) || n == 0x2028 || n == 0x2029 || n == 0x202F ||
    n == 0x205F || n == 0x3000

/-- Go `strings.TrimSpace`: leading and trailing white space removed. -/
def TrimSpace (s : List Char) : List Char :=
  ((s.dropWhile isSpace).reverse.dropWhile isSpace).reverse

/-- Puts a rune in front of the first piece of a split. -/
def consHead (c : Char) : List (List Char) → List (List Char)
  | [] => [[c]]
  | piece :: pieces => (c :: piece) :: pieces

/-- Go `strings.Split(s, sep)` for a separator `sep` of one rune: the pieces
of `s` between the occurrences of `sep`; a string without `sep` (the empty
string too) gives the one piece `s`. -/
def Split (sep : Char) : List Char → List (List Char)
  | [] => [[]]
  | c :: cs => if c = sep then [] :: Split sep cs else consHead c (Split sep cs)

/-- Go `strings.Join(pieces, sep)`. -/
def Join (sep : List Char) : List (List Char) → List Char
  | [] => []
  | [piece] => piece
  | piece :: next :: pieces => piece ++ sep ++ Join sep (next :: pieces)

/-- Scanner behind `Fields`: `cur` is the field being read. -/
def fieldsAux : List Char → List Char → List (List Char)
  | cur, [] => if cur = [] then [] else [cur]
  | cur, c :: cs =>
    if isSpace c then
      if cur = [] then fieldsAux [] cs else cur :: fieldsAux [] cs
    else fieldsAux (cur ++ [c]) cs

/-- Go `strings.Fields`: the maximal runs of runes that are not white space,
in order; no field at all for a string of white space only. -/
def Fields (s : List Char) : List (List Char) := fieldsAux [] s

/-! ## `system/daemon.go` -/

/-- Test made on one line by the loop of `IsSystemRunning`:
`TrimSpace(line) == "starting" || TrimSpace(line) == "running" ||
 TrimSpace(line) == "degraded"`. -/
def isSystemRunningLine (line : List Char) : Bool :=
  TrimSpace line == "starting".toList || TrimSpace line == "running".toList ||
    TrimSpace line == "degraded".toList

/-- Loop of `IsSystemRunning` over the lines of the output: `match` is set
and the loop left at the first line that passes the test. -/
def isSystemRunningLoop : List (List Char) → Bool
  | [] => false
  | line :: rest => if isSystemRunningLine line then true else isSystemRunningLoop rest

/-- Go `IsSystemRunning()`, as a function of `out`, the combined output of
`/usr/bin/systemctl is-system-running`; the command's error is only logged. -/
def IsSystemRunning (out : List Char) : Bool :=
  isSystemRunningLoop (Split '\n' out)

/-! ## Decimal numbers (`strconv`) -/

/-- The decimal digit of a number below ten. -/
def digitChar (d : Nat) : Char := Char.ofNat (48 + d)

/-- Value of a decimal digit, nothing for any other rune. -/
def digitVal (c : Char) : Option Nat :=
  if 48 ≤ c.toNat ∧ c.toNat ≤ 57 then some (c.toNat - 48) else none

/-- Digits of `n`, most significant first; `fuel` bounds the number of digits. -/
def formatUintFuel : Nat → Nat → List Char
  | 0, _ => []
  | fuel + 1, n =>
    if n < 10 then [digitChar n] else formatUintFuel fuel (n / 10) ++ [digitChar (n % 10)]

/-- Go `strconv.FormatUint(n, 10)`: the decimal rendering of `n`. -/
def FormatUint (n : Nat) : List Char := formatUintFuel (n + 1) n

/-- Reads decimal digits from the left, `acc` being the value read so far. -/
def parseUintAux : Nat → List Char → Option Nat
  | acc, [] => some acc
  | acc, c :: cs =>
    match digitVal c with
    | none => none
    | some d => parseUintAux (acc * 10 + d) cs

/-- Value of a non-empty string of decimal digits, nothing for another string. -/
def ParseUint (s : List Char) : Option Nat :=
  if s = [] then none else parseUintAux 0 s

/-! ## Optimisers of `sap/note`, exercised by `ini_sections_test.go` -/

/-- Modelled from the spec: `OptSysctlVal(operator, key, actval, cfgval)` of
package `note`, whose source file is not available (its test
`TestOptSysctlVal` is).  Spec 4.2: split the current and the recommended value
on white space; if the current value is empty, or the two tuples have different
arity, the result is empty; otherwise the recommended tuple is adopted,
re-joined with single tabs, whatever the operator. -/
def OptSysctlVal (_operator _key actval cfgval : List Char) : List Char :=
  let current := Fields actval
  let recommended := Fields cfgval
  if actval = [] then []
  else if current.length ≠ recommended.length then []
  else Join ['\t'] recommended

/-- Modelled from the spec: the fixed code table of the energy/performance
bias (spec 4.5): `performance→0, normal→6, powersave→15`. -/
def energyPerfBiasTable : List (List Char × List Char) :=
  [("performance".toList, "0".toList), ("normal".toList, "6".toList),
   ("powersave".toList, "15".toList)]

/-- Modelled from the spec: code of a policy name, `0` by default (spec 4.5). -/
def energyPerfBiasCode (policy : List Char) : List Char :=
  (energyPerfBiasTable.lookup policy).getD "0".toList

/-- Modelled from the spec: the key of an instance entry `key:value`, the part
before the colon (spec 3, instance map). -/
def entryKey (entry : List Char) : List Char := entry.takeWhile (fun c => c != ':')

/-- Modelled from the spec: every instance entry of the current value gets the
value `val`, keys and order kept, entries joined by single blanks (spec 4.5). -/
def overwriteEntries (actval val : List Char) : List Char :=
  Join [' '] ((Fields actval).map (fun entry => entryKey entry ++ [':'] ++ val))

/-- Modelled from the spec: `OptCPUVal(key, actval, cfgval)` of package `note`,
whose source file is not available (its test `TestOptCPUVal` is).  Spec 4.5:
the latency hint adopts the recommendation, the energy/performance bias writes
the code of the policy into every entry, the governor writes the recommendation
into every entry; an unknown parameter passes the value through (spec 7). -/
def OptCPUVal (key actval cfgval : List Char) : List Char :=
  if key = "force_latency".toList then cfgval
  else if key = "energy_perf_bias".toList then
    overwriteEntries actval (energyPerfBiasCode cfgval)
  else if key = "governor".toList then overwriteEntries actval cfgval
  else cfgval

/-- Modelled from the spec: `OptMemVal(key, actval, cfgval, tmpfspercent)` of
package `note`, whose source file is not available (its test `TestOptMemVal`
is); `totalMemSizeMB` stands for `system.GetTotalMemSizeMB()`.  Spec 4.6: a
plain percentage parameter passes the recommendation through; for the size
parameter the current value `-1` forces `-1`, an override other than `0` wins,
and otherwise the size is the percentage of the total memory, 75 percent when
the percentage is `0`.  An unknown parameter gives the empty string
(`TestOptMemVal`).  Sizes are natural numbers, the spec stating no bound on
them.  The spec gives no result for a percentage that is not a decimal number;
it counts as zero percent here. -/
def OptMemVal (totalMemSizeMB : Nat) (key actval cfgval tmpfspercent : List Char) :
    List Char :=
  if key = "VSZ_TMPFS_PERCENT".toList then cfgval
  else if key = "ShmFileSystemSizeMB".toList then
    if actval = "-1".toList then "-1".toList
    else if cfgval ≠ "0".toList then cfgval
    else if tmpfspercent = "0".toList then FormatUint (totalMemSizeMB * 75 / 100)
    else FormatUint (totalMemSizeMB * (ParseUint tmpfspercent).getD 0 / 100)
  else []

/-- Modelled from the spec: the virtual-memory switches, each with its
whitelist of accepted values and its fallback value (spec 4.4; the names `THP`
and `KSM` are those of `TestOptVMVal`). -/
def vmSwitches : List (List Char × (List (List Char) × List Char)) :=
  [("THP".toList, (["always".toList, "madvise".toList, "never".toList], "never".toList)),
   ("KSM".toList, (["0".toList, "1".toList], "0".toList))]

/-- Modelled from the spec: `OptVMVal(key, cfgval)` of package `note`, whose
source file is not available (its test `TestOptVMVal` is).  Spec 4.4: a
recommendation outside the whitelist of the switch is replaced by the fallback
of the switch; an unknown switch passes the recommendation through. -/
def OptVMVal (key cfgval : List Char) : List Char :=
  match vmSwitches.lookup key with
  | none => cfgval
  | some (whitelist, fallback) => if whitelist.contains cfgval then cfgval else fallback

/-- Modelled from the spec: the built-in default of the queue depth (spec 4.3). -/
def defaultNrRequests : List Char := "1024".toList

/-- Modelled from the spec: `OptBlkVal(key, cfgval, ...)` of package `note`,
whose source file is not available (its test `TestOptBlkVal` is); the result
is the pair of the value and the indicator.  Spec 4.3: the two sub-kinds are
keyed by the device name, `IO_SCHEDULER_<device>` and `NRREQ_<device>`
(`TestOptBlkVal`).  The scheduler choice, which consults what the device
advertises, is the parameter `chooseScheduler device cfgval`.  For the queue
depth the recommendation `0` stands for the built-in default and any other
recommendation passes through, without a look at the device; so does the
recommendation of an unknown parameter (spec 7). -/
def OptBlkVal (chooseScheduler : List Char → List Char → List Char × List Char)
    (key cfgval : List Char) : List Char × List Char :=
  if "IO_SCHEDULER_".toList.isPrefixOf key then
    chooseScheduler (key.drop "IO_SCHEDULER_".toList.length) cfgval
  else if "NRREQ_".toList.isPrefixOf key then
    if cfgval = "0".toList then (defaultNrRequests, []) else (cfgval, [])
  else (cfgval, [])

/-! ## `system/daemon.go`: commands run on the host -/

/-- What `exec.Command(...).CombinedOutput()` returns: the combined output and
the error, `none` for `nil`, otherwise the text `%v` prints for it. -/
structure CmdResult where
  out : List Char
  err : Option (List Char)
deriving DecidableEq

/-- The host the commands run on: a state, and for every command line the
result of running it in a state together with the state it leaves. -/
structure Host (σ : Type) where
  run : List (List Char) → σ → CmdResult × σ

/-- A point of an execution: the state of the host and the command lines run
so far, oldest first. -/
structure Run (σ : Type) where
  state : σ
  trace : List (List (List Char))
deriving DecidableEq

/-- Go `exec.Command(name, args...).CombinedOutput()`: runs the command line on
the host and records it. -/
def CombinedOutput {σ : Type} (h : Host σ) (cmd : List (List Char)) (r : Run σ) :
    CmdResult × Run σ :=
  ((h.run cmd r.state).1, { state := (h.run cmd r.state).2, trace := r.trace ++ [cmd] })

/-- Go `ErrorLog(txt, stuff...)`, on the formatted text: the error returned is
`fmt.Errorf(txt+"\n", stuff...)`; the lines written to the log are left out. -/
def ErrorLog (formatted : List Char) : List Char := formatted ++ ['\n']

/-- Go `SystemctlEnable(thing)`: the error of `systemctl enable thing`, wrapped
by `ErrorLog`, or `nil`. -/
def SystemctlEnable {σ : Type} (h : Host σ) (thing : List Char) (r : Run σ) :
    Option (List Char) × Run σ :=
  let res := CombinedOutput h ["systemctl".toList, "enable".toList, thing] r
  match res.1.err with
  | some err =>
    (some (ErrorLog (err ++ " - Failed to call systemctl enable on ".toList ++ thing ++
      " - ".toList ++ res.1.out)), res.2)
  | none => (none, res.2)

/-- Go `IsSystemRunning()` with its command: runs
`/usr/bin/systemctl is-system-running` and decides on its output. -/
def runIsSystemRunning {σ : Type} (h : Host σ) (r : Run σ) : Bool × Run σ :=
  let res := CombinedOutput h ["/usr/bin/systemctl".toList, "is-system-running".toList] r
  (IsSystemRunning res.1.out, res.2)

/-- Go `SystemctlStart(thing)`: `systemctl start thing` is run only if
`IsSystemRunning()` holds; its error, wrapped by `ErrorLog`, or `nil`. -/
def SystemctlStart {σ : Type} (h : Host σ) (thing : List Char) (r : Run σ) :
    Option (List Char) × Run σ :=
  let running := runIsSystemRunning h r
  if running.1 then
    let res := CombinedOutput h ["systemctl".toList, "start".toList, thing] running.2
    match res.1.err with
    | some err =>
      (some (ErrorLog (err ++ " - Failed to call systemctl start on ".toList ++ thing ++
        " - ".toList ++ res.1.out)), res.2)
    | none => (none, res.2)
  else (none, running.2)

/-- Go `SystemctlEnableStart(thing)`: the error of `SystemctlEnable` is returned
at once, otherwise the result is that of `SystemctlStart`. -/
def SystemctlEnableStart {σ : Type} (h : Host σ) (thing : List Char) (r : Run σ) :
    Option (List Char) × Run σ :=
  match SystemctlEnable h thing r with
  | (some err, r1) => (some err, r1)
  | (none, r1) => SystemctlStart h thing r1

/-- A host without state on which every command fails with `exit status 1`
and prints `denied`. -/
def failingHost : Host Unit where
  run := fun _ s => ({ out := "denied".toList, err := some "exit status 1".toList }, s)

/-- A host without state on which every command succeeds and prints `running`. -/
def runningHost : Host Unit where
  run := fun _ s => ({ out := "running\n".toList, err := none }, s)

/-! ## `system/daemon.go`: `GetTunedAdmProfile` -/

/-- The class `[\w-]` of Go's `regexp`: an ASCII letter, a digit, the
underscore or the hyphen. -/
def isProfileChar (c : Char) : Bool :=
  let n := c.toNat
  (48 ≤ n && n ≤ 57) || (65 ≤ n && n ≤ 90) || (97 ≤ n && n ≤ 122) || n == 95 || n == 45

/-- The literal text the pattern starts with. -/
def activeProfileText : List Char := "Current active profile: ".toList

/-- Match of the pattern `Current active profile: ([\w-]+)` at the start of
`s`: the text of the group, the longest run the greedy `+` can take. -/
def matchProfileHere (s : List Char) : Option (List Char) :=
  if activeProfileText.isPrefixOf s then
    let run := (s.drop activeProfileText.length).takeWhile isProfileChar
    if run = [] then none else some run
  else none

/-- Go `re.FindStringSubmatch(s)` for that pattern, reduced to the group
`matches[1]`: the match that starts leftmost in `s`, `none` for no match. -/
def findProfileSubmatch : List Char → Option (List Char)
  | [] => none
  | c :: cs =>
    match matchProfileHere (c :: cs) with
    | some profile => some profile
    | none => findProfileSubmatch cs

/-- Go `GetTunedAdmProfile()`, as a function of the result of
`tuned-adm active`: empty on an error of the command and when the pattern does
not match, otherwise the group of the match. -/
def GetTunedAdmProfile (res : CmdResult) : List Char :=
  match res.err with
  | some _ => []
  | none =>
    match findProfileSubmatch res.out with
    | none => []
    | some profile => profile

/-! ### Loop invariants of the folds -/

theorem foldl_maxStepU_ge_init (values : List Nat) (init : Nat) :
    init ≤ values.foldl maxStepU init := by
  induction values generalizing init with
  | nil => simp
  | cons v vs ih =>
    simp only [List.foldl_cons]
    refine le_trans ?_ (ih _)
    unfold maxStepU
    split <;> omega

theorem foldl_maxStepU_ge_mem (values : List Nat) (init : Nat) :
    ∀ v ∈ values, v ≤ values.foldl maxStepU init := by
  induction values generalizing init with
  | nil => simp
  | cons w ws ih =>
    intro v hv
    simp only [List.foldl_cons]
    rcases List.mem_cons.mp hv with h | h
    · subst h
      refine le_trans ?_ (foldl_maxStepU_ge_init ws _)
      unfold maxStepU
      split <;> omega
    · exact ih _ v h

theorem foldl_maxStepU_mem (values : List Nat) (init : Nat) :
    values.foldl maxStepU init = init ∨ values.foldl maxStepU init ∈ values := by
  induction values generalizing init with
  | nil => simp
  | cons w ws ih =>
    simp only [List.foldl_cons]
    rcases ih (maxStepU init w) with h | h
    · rw [h]
      unfold maxStepU
      split
      · right; simp
      · left; rfl
    · right; exact List.mem_cons_of_mem _ h

theorem foldl_minStepU_le_init (values : List Nat) (init : Nat) :
    values.foldl minStepU init ≤ init := by
  induction values generalizing init with
  | nil => simp
  | cons v vs ih =>
    simp only [List.foldl_cons]
    refine le_trans (ih _) ?_
    unfold minStepU
    split <;> omega

theorem foldl_minStepU_le_mem (values : List Nat) (init : Nat) :
    ∀ v ∈ values, values.foldl minStepU init ≤ v := by
  induction values generalizing init with
  | nil => simp
  | cons w ws ih =>
    intro v hv
    simp only [List.foldl_cons]
    rcases List.mem_cons.mp hv with h | h
    · subst h
      refine le_trans (foldl_minStepU_le_init ws _) ?_
      unfold minStepU
      split <;> omega
    · exact ih _ v h

theorem foldl_minStepU_mem (values : List Nat) (init : Nat) :
    values.foldl minStepU init = init ∨ values.foldl minStepU init ∈ values := by
  induction values generalizing init with
  | nil => simp
  | cons w ws ih =>
    simp only [List.foldl_cons]
    rcases ih (minStepU init w) with h | h
    · rw [h]
      unfold minStepU
      split
      · right; simp
      · left; rfl
    · right; exact List.mem_cons_of_mem _ h

theorem foldl_maxStepI_ge_init (values : List Int) (init : Int) :
    init ≤ values.foldl maxStepI init := by
  induction values generalizing init with
  | nil => simp
  | cons v vs ih =>
    simp only [List.foldl_cons]
    refine le_trans ?_ (ih _)
    unfold maxStepI
    split <;> omega

/-- The signed loops never return less than their zero start value. -/
theorem MaxI64_nonneg (values : List Int) : 0 ≤ MaxI64 values :=
  foldl_maxStepI_ge_init values 0

/-! ### Claims on the numeric helpers -/

/-- C1: evaluation of `MaxI64` and `MaxI` on the one-element input `-5`.
Both return `0`, which is not an element of the input, although `-5` is the
maximum among the input values. -/
theorem MaxI64_MaxI_negative_input :
    MaxI64 [-5] = 0 ∧ MaxI [-5] = 0 ∧ (0 : Int) ∉ [(-5 : Int)] := by
  decide

/-- C2: for every non-empty list of `uint64` values, `MinU64` returns an
element of the list that is less than or equal to every element. -/
theorem MinU64_is_minimum (values : List Nat) (hne : values ≠ [])
    (hrange : ∀ v ∈ values, v < 2 ^ 64) :
    MinU64 values ∈ values ∧ ∀ v ∈ values, MinU64 values ≤ v := by
  have hlen : ¬ values.length = 0 := by
    intro h; exact hne (List.length_eq_zero.mp h)
  unfold MinU64
  rw [if_neg hlen]
  refine ⟨?_, foldl_minStepU_le_mem values MaxUint64⟩
  rcases foldl_minStepU_mem values MaxUint64 with h | h
  · -- the start value survived: every input equals `math.MaxUint64`
    obtain ⟨w, hw⟩ := List.exists_mem_of_ne_nil values hne
    have h1 := foldl_minStepU_le_mem values MaxUint64 w hw
    have h2 := hrange w hw
    rw [h] at h1 ⊢
    have : w = MaxUint64 := by
      unfold MaxUint64 at h1 ⊢
      omega
    rw [← this]; exact hw
  · exact h

theorem MinU64_is_minimum_witness :
    ([2 ^ 64 - 1, 2 ^ 64 - 1] : List Nat) ≠ [] ∧
      (∀ v ∈ [2 ^ 64 - 1, 2 ^ 64 - 1], v < 2 ^ 64) ∧
      MinU64 [2 ^ 64 - 1, 2 ^ 64 - 1] ∈ [2 ^ 64 - 1, 2 ^ 64 - 1] ∧
      ∀ v ∈ [2 ^ 64 - 1, 2 ^ 64 - 1], MinU64 [2 ^ 64 - 1, 2 ^ 64 - 1] ≤ v :=
  ⟨by decide, by decide,
    MinU64_is_minimum [2 ^ 64 - 1, 2 ^ 64 - 1] (by decide) (by decide)⟩

/-- C3: for every non-empty list of `uint64` values, `MaxU64` returns an
element of the list that is greater than or equal to every element. -/
theorem MaxU64_is_maximum (values : List Nat) (hne : values ≠ []) :
    MaxU64 values ∈ values ∧ ∀ v ∈ values, v ≤ MaxU64 values := by
  unfold MaxU64
  refine ⟨?_, foldl_maxStepU_ge_mem values 0⟩
  rcases foldl_maxStepU_mem values 0 with h | h
  · -- the start value survived: every input is zero
    obtain ⟨w, hw⟩ := List.exists_mem_of_ne_nil values hne
    have h1 := foldl_maxStepU_ge_mem values 0 w hw
    rw [h] at h1 ⊢
    have : w = 0 := by omega
    rw [← this]; exact hw
  · exact h

theorem MaxU64_is_maximum_witness :
    ([7, 0, 2 ^ 64 - 1] : List Nat) ≠ [] ∧
      MaxU64 [7, 0, 2 ^ 64 - 1] ∈ [7, 0, 2 ^ 64 - 1] ∧
      ∀ v ∈ [7, 0, 2 ^ 64 - 1], v ≤ MaxU64 [7, 0, 2 ^ 64 - 1] :=
  ⟨by decide, MaxU64_is_maximum [7, 0, 2 ^ 64 - 1] (by decide)⟩

/-- C4: called with no input values, each of `MaxI64`, `MaxI`, `MaxU64` and
`MinU64` returns `0`. -/
theorem helpers_on_empty_input :
    MaxI64 [] = 0 ∧ MaxI [] = 0 ∧ MaxU64 [] = 0 ∧ MinU64 [] = 0 := by
  refine ⟨rfl, rfl, rfl, rfl⟩

/-! ### `Split` and `Join` -/

theorem consHead_ne_nil (c : Char) (ps : List (List Char)) : consHead c ps ≠ [] := by
  cases ps <;> simp [consHead]

theorem Split_ne_nil (sep : Char) (s : List Char) : Split sep s ≠ [] := by
  cases s with
  | nil => simp [Split]
  | cons c cs =>
    simp only [Split]
    split
    · simp
    · exact consHead_ne_nil _ _

/-- No piece of a split contains the separator. -/
theorem Split_pieces_free (sep : Char) (s : List Char) :
    ∀ piece ∈ Split sep s, sep ∉ piece := by
  induction s with
  | nil => simp [Split]
  | cons c cs ih =>
    intro piece hp
    simp only [Split] at hp
    split at hp
    · rcases List.mem_cons.mp hp with h | h
      · subst h; simp
      · exact ih piece h
    · rename_i hc
      cases hsp : Split sep cs with
      | nil => exact absurd hsp (Split_ne_nil sep cs)
      | cons q qs =>
        rw [hsp] at hp ih
        simp only [consHead] at hp
        rcases List.mem_cons.mp hp with h | h
        · subst h
          have hq := ih q (List.mem_cons_self _ _)
          intro hmem
          rcases List.mem_cons.mp hmem with h1 | h1
          · exact hc h1.symm
          · exact hq h1
        · exact ih piece (List.mem_cons_of_mem _ h)

/-- Joining the pieces of a split with the separator gives the string back. -/
theorem Join_Split (sep : Char) (s : List Char) : Join [sep] (Split sep s) = s := by
  induction s with
  | nil => simp [Split, Join]
  | cons c cs ih =>
    simp only [Split]
    cases hsp : Split sep cs with
    | nil => exact absurd hsp (Split_ne_nil sep cs)
    | cons q qs =>
      rw [hsp] at ih
      split
      · rename_i hc
        subst hc
        simp only [Join, List.nil_append, List.singleton_append, ih]
      · simp only [consHead]
        cases qs with
        | nil =>
          simp only [Join] at ih ⊢
          rw [ih]
        | cons r rs =>
          simp only [Join] at ih ⊢
          rw [← ih]
          simp

/-! ### `IsSystemRunning` -/

theorem isSystemRunningLoop_iff (lines : List (List Char)) :
    isSystemRunningLoop lines = true ↔ ∃ line ∈ lines, isSystemRunningLine line = true := by
  induction lines with
  | nil => simp [isSystemRunningLoop]
  | cons l ls ih =>
    simp only [isSystemRunningLoop, List.exists_mem_cons_iff]
    by_cases h : isSystemRunningLine l = true
    · simp [h]
    · simp [h, ih]

theorem isSystemRunningLine_iff (line : List Char) :
    isSystemRunningLine line = true ↔
      (TrimSpace line = "starting".toList ∨ TrimSpace line = "running".toList ∨
        TrimSpace line = "degraded".toList) := by
  simp [isSystemRunningLine, or_assoc]

/-- C5: evaluation of `IsSystemRunning` on the output `degraded`.  No line of
it is `running` or `starting` after trimming, so the function should return
false, as its header comment says (`In all other cases it returns false`); it
returns true. -/
theorem IsSystemRunning_degraded_input :
    IsSystemRunning "degraded\n".toList = true ∧
      ¬ ∃ line ∈ Split '\n' "degraded\n".toList,
          TrimSpace line = "running".toList ∨ TrimSpace line = "starting".toList := by
  decide

/-- What the loop of `IsSystemRunning` computes as it is written: true exactly
when some line of the output, after trimming surrounding white space, is one of
`starting`, `running` or `degraded`.  The header comment of the function names
`running` and `starting` only. -/
theorem IsSystemRunning_iff (out : List Char) :
    IsSystemRunning out = true ↔
      ∃ line ∈ Split '\n' out,
        TrimSpace line = "starting".toList ∨ TrimSpace line = "running".toList ∨
          TrimSpace line = "degraded".toList := by
  unfold IsSystemRunning
  rw [isSystemRunningLoop_iff]
  constructor
  · rintro ⟨line, hl, h⟩
    exact ⟨line, hl, (isSystemRunningLine_iff line).mp h⟩
  · rintro ⟨line, hl, h⟩
    exact ⟨line, hl, (isSystemRunningLine_iff line).mpr h⟩

/-! ### Decimal numbers -/

theorem digitVal_digitChar (d : Nat) (hd : d < 10) : digitVal (digitChar d) = some d := by
  interval_cases d <;> decide

theorem parseUintAux_append_digit (s : List Char) (acc d : Nat) (hd : d < 10) :
    parseUintAux acc (s ++ [digitChar d]) = (parseUintAux acc s).map (fun v => v * 10 + d) := by
  induction s generalizing acc with
  | nil => simp [parseUintAux, digitVal_digitChar d hd]
  | cons c cs ih =>
    simp only [List.cons_append, parseUintAux]
    cases digitVal c with
    | none => simp
    | some v => exact ih _

theorem formatUintFuel_ne_nil (fuel n : Nat) (h : n < fuel) : formatUintFuel fuel n ≠ [] := by
  cases fuel with
  | zero => omega
  | succ f =>
    simp only [formatUintFuel]
    split <;> simp

theorem parseUintAux_formatUintFuel (fuel n : Nat) (h : n < fuel) :
    parseUintAux 0 (formatUintFuel fuel n) = some n := by
  induction fuel generalizing n with
  | zero => omega
  | succ f ih =>
    simp only [formatUintFuel]
    split
    · rename_i hn
      simp [parseUintAux, digitVal_digitChar n hn]
    · rename_i hn
      have hlt : n / 10 < f := by omega
      rw [parseUintAux_append_digit _ _ _ (Nat.mod_lt n (by decide)), ih _ hlt]
      simp only [Option.map_some']
      congr 1
      omega

/-- Reading the decimal rendering of a number gives the number back. -/
theorem ParseUint_FormatUint (n : Nat) : ParseUint (FormatUint n) = some n := by
  unfold ParseUint FormatUint
  rw [if_neg (formatUintFuel_ne_nil _ _ (Nat.lt_succ_self n))]
  exact parseUintAux_formatUintFuel _ _ (Nat.lt_succ_self n)

/-! ### `Fields` on a joined tuple -/

theorem fieldsAux_append_field (x cur rest : List Char) (hx : ∀ c ∈ x, isSpace c = false) :
    fieldsAux cur (x ++ rest) = fieldsAux (cur ++ x) rest := by
  induction x generalizing cur with
  | nil => simp
  | cons c cs ih =>
    have hc : isSpace c = false := hx c (List.mem_cons_self _ _)
    have hcs : ∀ d ∈ cs, isSpace d = false := fun d hd => hx d (List.mem_cons_of_mem _ hd)
    rw [List.cons_append, fieldsAux, hc]
    simp only [Bool.false_eq_true, if_false]
    rw [ih _ hcs]
    simp

theorem fieldsAux_blank (cur rest : List Char) (hcur : cur ≠ []) :
    fieldsAux cur (' ' :: rest) = cur :: fieldsAux [] rest := by
  have hsp : isSpace ' ' = true := by decide
  rw [fieldsAux, hsp, if_pos rfl, if_neg hcur]

/-- The fields of a tuple written with single blanks are the members of the
tuple, when no member is empty or contains white space. -/
theorem Fields_Join_blank (xs : List (List Char))
    (hxs : ∀ x ∈ xs, x ≠ [] ∧ ∀ c ∈ x, isSpace c = false) :
    Fields (Join [' '] xs) = xs := by
  unfold Fields
  induction xs with
  | nil => rfl
  | cons x rest ih =>
    obtain ⟨hne, hx⟩ := hxs x (List.mem_cons_self _ _)
    have hrest : ∀ y ∈ rest, y ≠ [] ∧ ∀ c ∈ y, isSpace c = false :=
      fun y hy => hxs y (List.mem_cons_of_mem _ hy)
    cases rest with
    | nil =>
      have h := fieldsAux_append_field x [] [] hx
      simp only [List.append_nil, List.nil_append] at h
      rw [Join, h, fieldsAux, if_neg hne]
    | cons y ys =>
      rw [Join, List.append_assoc, fieldsAux_append_field x [] _ hx, List.nil_append,
        List.singleton_append, fieldsAux_blank _ _ hne, ih hrest]

/-! ### The cases of `ini_sections_test.go` -/

/-- The cases of `TestOptSysctlVal`. -/
theorem TestOptSysctlVal_cases :
    OptSysctlVal "=".toList "TestParam".toList "120".toList "100".toList = "100".toList ∧
    OptSysctlVal "=".toList "TestParam".toList "120 300 200".toList "100 330 180".toList =
      "100\t330\t180".toList ∧
    OptSysctlVal "=".toList "TestParam".toList "120 300".toList "100 330 180".toList = [] ∧
    OptSysctlVal "=".toList "TestParam".toList [] "100 330 180".toList = [] ∧
    OptSysctlVal "<".toList "TestParam".toList "120".toList "180".toList = "180".toList ∧
    OptSysctlVal ">".toList "TestParam".toList "120".toList "100".toList = "100".toList := by
  decide

/-- The cases of `TestOptCPUVal`. -/
theorem TestOptCPUVal_cases :
    OptCPUVal "force_latency".toList "1000".toList "70".toList = "70".toList ∧
    OptCPUVal "energy_perf_bias".toList "all:15".toList "performance".toList = "all:0".toList ∧
    OptCPUVal "energy_perf_bias".toList "cpu0:15 cpu1:6 cpu2:0".toList "performance".toList =
      "cpu0:0 cpu1:0 cpu2:0".toList ∧
    OptCPUVal "energy_perf_bias".toList "all:15".toList "normal".toList = "all:6".toList ∧
    OptCPUVal "energy_perf_bias".toList "all:15".toList "powersave".toList = "all:15".toList ∧
    OptCPUVal "energy_perf_bias".toList "all:15".toList "unknown".toList = "all:0".toList ∧
    OptCPUVal "governor".toList "all:powersave".toList "performance".toList =
      "all:performance".toList ∧
    OptCPUVal "governor".toList "cpu0:powersave cpu1:performance cpu2:powersave".toList
      "performance".toList = "cpu0:performance cpu1:performance cpu2:performance".toList := by
  decide

/-- The cases of `TestOptMemVal`, on a machine of 32000 MB. -/
theorem TestOptMemVal_cases :
    OptMemVal 32000 "VSZ_TMPFS_PERCENT".toList "47".toList "80".toList "80".toList =
      "80".toList ∧
    OptMemVal 32000 "VSZ_TMPFS_PERCENT".toList "-1".toList "75".toList "75".toList =
      "75".toList ∧
    OptMemVal 32000 "ShmFileSystemSizeMB".toList "16043".toList "0".toList "80".toList =
      FormatUint (32000 * 80 / 100) ∧
    OptMemVal 32000 "ShmFileSystemSizeMB".toList "-1".toList "0".toList "80".toList =
      "-1".toList ∧
    OptMemVal 32000 "ShmFileSystemSizeMB".toList "16043".toList "0".toList "0".toList =
      FormatUint (32000 * 75 / 100) ∧
    OptMemVal 32000 "ShmFileSystemSizeMB".toList "16043".toList "25605".toList "0".toList =
      "25605".toList ∧
    OptMemVal 32000 "ShmFileSystemSizeMB".toList "-1".toList "25605".toList "0".toList =
      "-1".toList ∧
    OptMemVal 32000 "UNKOWN_PARAMETER".toList "16043".toList "0".toList "0".toList = [] := by
  decide

/-- The cases of `TestOptVMVal`. -/
theorem TestOptVMVal_cases :
    OptVMVal "THP".toList "always".toList = "always".toList ∧
    OptVMVal "THP".toList "unknown".toList = "never".toList ∧
    OptVMVal "KSM".toList "1".toList = "1".toList ∧
    OptVMVal "KSM".toList "2".toList = "0".toList ∧
    OptVMVal "UNKOWN_PARAMETER".toList "unknown".toList = "unknown".toList := by
  decide

/-- The queue-depth cases of `TestOptBlkVal`, for a scheduler choice that
supports nothing. -/
theorem TestOptBlkVal_cases :
    (OptBlkVal (fun _ r => (r, "NA".toList)) "NRREQ_sda".toList "512".toList).1 =
      "512".toList ∧
    (OptBlkVal (fun _ r => (r, "NA".toList)) "NRREQ_sdb".toList "0".toList).1 =
      "1024".toList ∧
    (OptBlkVal (fun _ r => (r, "NA".toList)) "NRREQ_sdc".toList "128".toList).1 =
      "128".toList := by
  decide

/-! ### The optimisers -/

theorem Join_nil (sep : List Char) : Join sep [] = [] := rfl

/-- C6: for every operator (`=`, `<`, `>` among them), current value and
recommended value, `OptSysctlVal` returns the empty string when the current
value has no field or the two values differ in their number of fields, and
otherwise the fields of the recommended value joined by single tabs. -/
theorem OptSysctlVal_fields (operator key actval cfgval : List Char) :
    OptSysctlVal operator key actval cfgval =
      if Fields actval = [] ∨ (Fields actval).length ≠ (Fields cfgval).length then []
      else Join ['\t'] (Fields cfgval) := by
  unfold OptSysctlVal
  by_cases hact : actval = []
  · subst hact
    have : Fields [] = [] := rfl
    simp [this]
  · simp only [hact, if_false]
    by_cases hlen : (Fields actval).length = (Fields cfgval).length
    · by_cases hnil : Fields actval = []
      · have hrec : Fields cfgval = [] := by
          rw [hnil] at hlen
          exact List.length_eq_zero.mp hlen.symm
        simp [hnil, hrec, Join_nil]
      · simp [hlen, hnil]
    · simp [hlen]

theorem entryKey_entry (k v : List Char) (hk : ':' ∉ k) :
    entryKey (k ++ [':'] ++ v) = k := by
  unfold entryKey
  induction k with
  | nil => simp [List.takeWhile]
  | cons c cs ih =>
    have hc : c ≠ ':' := fun h => hk (by simp [h])
    have hcs : ':' ∉ cs := fun h => hk (List.mem_cons_of_mem _ h)
    have hb : (c != ':') = true := by simpa using hc
    have h := ih hcs
    rw [List.cons_append, List.cons_append, List.takeWhile_cons, hb, if_pos rfl, h]

theorem energyPerfBiasCode_eq (policy : List Char) :
    energyPerfBiasCode policy =
      if policy = "performance".toList then "0".toList
      else if policy = "normal".toList then "6".toList
      else if policy = "powersave".toList then "15".toList
      else "0".toList := by
  unfold energyPerfBiasCode energyPerfBiasTable
  by_cases h1 : policy = "performance".toList
  · subst h1; decide
  · by_cases h2 : policy = "normal".toList
    · subst h2; decide
    · by_cases h3 : policy = "powersave".toList
      · subst h3; decide
      · have b1 : (policy == "performance".toList) = false := by simpa using h1
        have b2 : (policy == "normal".toList) = false := by simpa using h2
        have b3 : (policy == "powersave".toList) = false := by simpa using h3
        simp only [List.lookup, b1, b2, b3, h1, h2, h3, if_false, Option.getD_none]

/-- C7: for every current value whose white-space separated entries are
`key:value` (no colon in the key) and every recommendation,
`OptCPUVal("energy_perf_bias", current, recommendation)` is the same entries in
the same order with the same keys, every value replaced by one code, joined by
single blanks; the code is 0 for `performance`, 6 for `normal`, 15 for
`powersave` and 0 for any other recommendation. -/
theorem OptCPUVal_energy_perf_bias (entries : List (List Char × List Char))
    (current cfgval : List Char) (hkeys : ∀ e ∈ entries, ':' ∉ e.1)
    (hcur : Fields current = entries.map (fun e => e.1 ++ [':'] ++ e.2)) :
    OptCPUVal "energy_perf_bias".toList current cfgval =
      Join [' '] (entries.map (fun e => e.1 ++ [':'] ++
        (if cfgval = "performance".toList then "0".toList
         else if cfgval = "normal".toList then "6".toList
         else if cfgval = "powersave".toList then "15".toList
         else "0".toList))) := by
  have hkey : ¬ "energy_perf_bias".toList = "force_latency".toList := by decide
  unfold OptCPUVal overwriteEntries
  rw [if_neg hkey, if_pos rfl, hcur, energyPerfBiasCode_eq, List.map_map]
  congr 1
  apply List.map_congr_left
  intro e he
  simp only [Function.comp]
  rw [entryKey_entry e.1 e.2 (hkeys e he)]

theorem OptCPUVal_energy_perf_bias_witness :
    OptCPUVal "energy_perf_bias".toList "cpu0:15 cpu1:6 cpu2:0".toList "normal".toList =
      "cpu0:6 cpu1:6 cpu2:6".toList :=
  (OptCPUVal_energy_perf_bias
    [("cpu0".toList, "15".toList), ("cpu1".toList, "6".toList), ("cpu2".toList, "0".toList)]
    "cpu0:15 cpu1:6 cpu2:0".toList "normal".toList (by decide) (by decide)).trans (by decide)

/-- C8: for the size parameter `ShmFileSystemSizeMB` of `OptMemVal`: with the
current value `-1` the result is `-1` for every override and percentage;
otherwise an override other than `0` is the result for every percentage;
otherwise the result is the decimal rendering of `totalMemSizeMB * p / 100`,
`p` being the number the percentage denotes, or 75 when the percentage is `0`. -/
theorem OptMemVal_ShmFileSystemSizeMB (totalMemSizeMB : Nat) (current override : List Char) :
    (∀ percentage, current = "-1".toList →
      OptMemVal totalMemSizeMB "ShmFileSystemSizeMB".toList current override percentage =
        "-1".toList) ∧
    (∀ percentage, current ≠ "-1".toList → override ≠ "0".toList →
      OptMemVal totalMemSizeMB "ShmFileSystemSizeMB".toList current override percentage =
        override) ∧
    (∀ percentage p, current ≠ "-1".toList → override = "0".toList →
      ParseUint percentage = some p →
      OptMemVal totalMemSizeMB "ShmFileSystemSizeMB".toList current override percentage =
        FormatUint (totalMemSizeMB * (if percentage = "0".toList then 75 else p) / 100)) := by
  have hkey : ¬ "ShmFileSystemSizeMB".toList = "VSZ_TMPFS_PERCENT".toList := by decide
  refine ⟨?_, ?_, ?_⟩
  · intro percentage hcur
    unfold OptMemVal
    rw [if_neg hkey, if_pos rfl, if_pos hcur]
  · intro percentage hcur hov
    unfold OptMemVal
    rw [if_neg hkey, if_pos rfl, if_neg hcur, if_pos hov]
  · intro percentage p hcur hov hp
    unfold OptMemVal
    rw [if_neg hkey, if_pos rfl, if_neg hcur, if_neg (not_not.mpr hov)]
    by_cases hz : percentage = "0".toList
    · rw [if_pos hz, if_pos hz]
    · rw [if_neg hz, if_neg hz, hp, Option.getD_some]

theorem OptMemVal_ShmFileSystemSizeMB_witness :
    OptMemVal 32000 "ShmFileSystemSizeMB".toList "-1".toList "25605".toList "80".toList =
        "-1".toList ∧
      OptMemVal 32000 "ShmFileSystemSizeMB".toList "16043".toList "25605".toList "80".toList =
        "25605".toList ∧
      OptMemVal 32000 "ShmFileSystemSizeMB".toList "16043".toList "0".toList "80".toList =
        "25600".toList ∧
      OptMemVal 32000 "ShmFileSystemSizeMB".toList "16043".toList "0".toList "0".toList =
        "24000".toList :=
  ⟨(OptMemVal_ShmFileSystemSizeMB 32000 "-1".toList "25605".toList).1 "80".toList rfl,
   (OptMemVal_ShmFileSystemSizeMB 32000 "16043".toList "25605".toList).2.1 "80".toList
      (by decide) (by decide),
   ((OptMemVal_ShmFileSystemSizeMB 32000 "16043".toList "0".toList).2.2 "80".toList 80
      (by decide) rfl (by decide)).trans (by decide),
   ((OptMemVal_ShmFileSystemSizeMB 32000 "16043".toList "0".toList).2.2 "0".toList 0
      (by decide) rfl (by decide)).trans (by decide)⟩

/-- C9: for every recommendation `r`, `OptVMVal("THP", r)` is `r` when `r` is
one of `always`, `madvise`, `never` and `never` otherwise; `OptVMVal("KSM", r)`
is `r` when `r` is `0` or `1` and `0` otherwise; for every other switch name
`OptVMVal(name, r)` is `r`. -/
theorem OptVMVal_whitelists (key r : List Char) :
    OptVMVal key r =
      if key = "THP".toList then
        (if r = "always".toList ∨ r = "madvise".toList ∨ r = "never".toList then r
         else "never".toList)
      else if key = "KSM".toList then
        (if r = "0".toList ∨ r = "1".toList then r else "0".toList)
      else r := by
  unfold OptVMVal vmSwitches
  by_cases h1 : key = "THP".toList
  · subst h1
    rw [if_pos rfl]
    have hl : List.lookup "THP".toList
        [("THP".toList, (["always".toList, "madvise".toList, "never".toList], "never".toList)),
         ("KSM".toList, (["0".toList, "1".toList], "0".toList))] =
        some (["always".toList, "madvise".toList, "never".toList], "never".toList) := by
      decide
    rw [hl]
    simp only [List.contains_eq_any_beq, List.any_cons, List.any_nil, Bool.or_false,
      Bool.or_eq_true, beq_iff_eq]
  · rw [if_neg h1]
    have b1 : (key == "THP".toList) = false := by simpa using h1
    by_cases h2 : key = "KSM".toList
    · subst h2
      rw [if_pos rfl]
      have hl : List.lookup "KSM".toList
          [("THP".toList, (["always".toList, "madvise".toList, "never".toList], "never".toList)),
           ("KSM".toList, (["0".toList, "1".toList], "0".toList))] =
          some (["0".toList, "1".toList], "0".toList) := by
        decide
      rw [hl]
      simp only [List.contains_eq_any_beq, List.any_cons, List.any_nil, Bool.or_false,
        Bool.or_eq_true, beq_iff_eq]
    · rw [if_neg h2]
      have b2 : (key == "KSM".toList) = false := by simpa using h2
      simp only [List.lookup, b1, b2]

theorem isPrefixOf_append_self (p s : List Char) : p.isPrefixOf (p ++ s) = true := by
  induction p with
  | nil => simp [List.isPrefixOf]
  | cons c cs ih => simp [List.isPrefixOf, ih]

/-- C10: for every block device name and every recommendation `r` (every
numeric one among them), the value of `OptBlkVal` on the queue-depth key
`NRREQ_<device>` is `1024` when `r` is `0` and `r` otherwise, whatever the
device and whatever the scheduler choice reads from the device. -/
theorem OptBlkVal_NRREQ (chooseScheduler : List Char → List Char → List Char × List Char)
    (device r : List Char) :
    (OptBlkVal chooseScheduler ("NRREQ_".toList ++ device) r).1 =
      if r = "0".toList then "1024".toList else r := by
  have hsched : ¬ "IO_SCHEDULER_".toList.isPrefixOf ("NRREQ_".toList ++ device) = true := by
    simp [List.isPrefixOf]
  unfold OptBlkVal
  rw [if_neg hsched, if_pos (isPrefixOf_append_self _ _)]
  by_cases h : r = "0".toList
  · rw [if_pos h, if_pos h]; rfl
  · rw [if_neg h, if_neg h]

/-! ### `SystemctlEnableStart` -/

theorem SystemctlEnable_trace {σ : Type} (h : Host σ) (thing : List Char) (r : Run σ) :
    (SystemctlEnable h thing r).2.trace =
      r.trace ++ [["systemctl".toList, "enable".toList, thing]] := by
  unfold SystemctlEnable
  dsimp only
  split <;> rfl

/-- C12: `SystemctlEnableStart` first runs `systemctl enable` on the thing.
When that fails, it returns the error of the enable call and no further command
is run, `systemctl start` in particular; when it succeeds, result and effect
are exactly those of `SystemctlStart` on the same thing, called next. -/
theorem SystemctlEnableStart_result {σ : Type} (h : Host σ) (thing : List Char) (r : Run σ) :
    (∀ err, (SystemctlEnable h thing r).1 = some err →
      SystemctlEnableStart h thing r = (some err, (SystemctlEnable h thing r).2) ∧
      (SystemctlEnableStart h thing r).2.trace =
        r.trace ++ [["systemctl".toList, "enable".toList, thing]]) ∧
    ((SystemctlEnable h thing r).1 = none →
      SystemctlEnableStart h thing r =
        SystemctlStart h thing (SystemctlEnable h thing r).2) := by
  constructor
  · intro err herr
    have hres : SystemctlEnableStart h thing r = (some err, (SystemctlEnable h thing r).2) := by
      unfold SystemctlEnableStart
      cases hen : SystemctlEnable h thing r with
      | mk e r1 =>
        rw [hen] at herr
        simp only at herr
        subst herr
        rfl
    refine ⟨hres, ?_⟩
    rw [hres]
    exact SystemctlEnable_trace h thing r
  · intro hnone
    unfold SystemctlEnableStart
    cases hen : SystemctlEnable h thing r with
    | mk e r1 =>
      rw [hen] at hnone
      simp only at hnone
      subst hnone
      rfl

theorem SystemctlEnableStart_result_witness :
    (SystemctlEnableStart failingHost "tuned".toList { state := (), trace := [] } =
        (some "exit status 1 - Failed to call systemctl enable on tuned - denied\n".toList,
          { state := (),
            trace := [["systemctl".toList, "enable".toList, "tuned".toList]] })) ∧
      (SystemctlEnableStart runningHost "tuned".toList { state := (), trace := [] } =
        (none,
          { state := (),
            trace := [["systemctl".toList, "enable".toList, "tuned".toList],
              ["/usr/bin/systemctl".toList, "is-system-running".toList],
              ["systemctl".toList, "start".toList, "tuned".toList]] })) :=
  ⟨((SystemctlEnableStart_result failingHost "tuned".toList { state := (), trace := [] }).1
      "exit status 1 - Failed to call systemctl enable on tuned - denied\n".toList
      (by decide)).1.trans (by decide),
   ((SystemctlEnableStart_result runningHost "tuned".toList { state := (), trace := [] }).2
      (by decide)).trans (by decide)⟩

/-! ### `GetTunedAdmProfile` -/

theorem takeWhile_run (p : Char → Bool) (run post : List Char)
    (hrun : ∀ c ∈ run, p c = true) (hpost : ∀ c ∈ post.head?, p c = false) :
    (run ++ post).takeWhile p = run := by
  induction run with
  | nil =>
    cases post with
    | nil => rfl
    | cons d ds =>
      have hd : p d = false := hpost d (by simp)
      simp [List.takeWhile, hd]
  | cons c cs ih =>
    have hc : p c = true := hrun c (List.mem_cons_self _ _)
    have hcs : ∀ d ∈ cs, p d = true := fun d hd => hrun d (List.mem_cons_of_mem _ hd)
    rw [List.cons_append, List.takeWhile_cons, hc, if_pos rfl, ih hcs]

theorem matchProfileHere_text (rest : List Char) :
    matchProfileHere (activeProfileText ++ rest) =
      if rest.takeWhile isProfileChar = [] then none
      else some (rest.takeWhile isProfileChar) := by
  unfold matchProfileHere
  rw [if_pos (isPrefixOf_append_self _ _), List.drop_left]

theorem matchProfileHere_some (s profile : List Char)
    (h : matchProfileHere s = some profile) :
    ∃ c post, s = activeProfileText ++ c :: post ∧ isProfileChar c = true := by
  unfold matchProfileHere at h
  by_cases hpre : activeProfileText.isPrefixOf s = true
  · rw [if_pos hpre] at h
    obtain ⟨rest, hrest⟩ := List.isPrefixOf_iff_prefix.mp hpre
    subst hrest
    rw [List.drop_left] at h
    cases rest with
    | nil => simp at h
    | cons c post =>
      refine ⟨c, post, rfl, ?_⟩
      by_cases hc : isProfileChar c = true
      · exact hc
      · simp [List.takeWhile, hc] at h
  · rw [if_neg hpre] at h
    exact absurd h (by simp)

theorem findProfileSubmatch_none (out : List Char)
    (h : ∀ pre s, out = pre ++ s → matchProfileHere s = none) :
    findProfileSubmatch out = none := by
  induction out with
  | nil => rfl
  | cons c cs ih =>
    rw [findProfileSubmatch, h [] (c :: cs) rfl]
    exact ih (fun pre s hs => h (c :: pre) s (by rw [hs]; rfl))

theorem findProfileSubmatch_first (pre s profile : List Char)
    (hs : matchProfileHere s = some profile)
    (hfirst : ∀ pre1 s1, pre ++ s = pre1 ++ s1 → pre1.length < pre.length →
      matchProfileHere s1 = none) :
    findProfileSubmatch (pre ++ s) = some profile := by
  induction pre with
  | nil =>
    cases s with
    | nil =>
      have hnil : matchProfileHere [] = none := by decide
      rw [hnil] at hs
      exact absurd hs (by simp)
    | cons c cs => rw [List.nil_append, findProfileSubmatch, hs]
  | cons a rest ih =>
    have h0 : matchProfileHere (a :: rest ++ s) = none :=
      hfirst [] (a :: rest ++ s) rfl (by simp)
    rw [List.cons_append] at h0 ⊢
    rw [findProfileSubmatch, h0]
    apply ih
    intro pre1 s1 heq hlen
    exact hfirst (a :: pre1) s1 (by rw [List.cons_append, heq]; rfl)
      (by simp only [List.length_cons]; omega)

/-- C11: `GetTunedAdmProfile` returns the empty string when `tuned-adm active`
fails, and when its output nowhere has the text `Current active profile: `
followed by a letter, digit, underscore or hyphen.  When the output has
`Current active profile: P`, with `P` a non-empty run of such characters that
cannot be extended, and no earlier place of the output has the text followed by
such a character, the result is `P`. -/
theorem GetTunedAdmProfile_result (out : List Char) :
    (∀ err, GetTunedAdmProfile { out := out, err := some err } = []) ∧
    ((¬ ∃ pre c post, out = pre ++ "Current active profile: ".toList ++ c :: post ∧
        isProfileChar c = true) →
      GetTunedAdmProfile { out := out, err := none } = []) ∧
    (∀ pre P post, out = pre ++ "Current active profile: ".toList ++ P ++ post →
      P ≠ [] → (∀ c ∈ P, isProfileChar c = true) →
      (∀ c ∈ post.head?, isProfileChar c = false) →
      (∀ pre1 c post1, out = pre1 ++ "Current active profile: ".toList ++ c :: post1 →
        isProfileChar c = true → pre.length ≤ pre1.length) →
      GetTunedAdmProfile { out := out, err := none } = P) := by
  have htext : "Current active profile: ".toList = activeProfileText := rfl
  rw [htext]
  refine ⟨fun err => rfl, ?_, ?_⟩
  · intro hno
    have hnone : findProfileSubmatch out = none := by
      apply findProfileSubmatch_none
      intro pre s hs
      cases hm : matchProfileHere s with
      | none => rfl
      | some profile =>
        obtain ⟨c, post, hdec, hc⟩ := matchProfileHere_some s profile hm
        exact absurd ⟨pre, c, post, by rw [hs, hdec, List.append_assoc], hc⟩ hno
    unfold GetTunedAdmProfile
    simp only [hnone]
  · intro pre P post hout hne hP hpost hfirst
    have htake : (P ++ post).takeWhile isProfileChar = P := takeWhile_run _ P post hP hpost
    have hhere : matchProfileHere (activeProfileText ++ (P ++ post)) = some P := by
      rw [matchProfileHere_text, htake, if_neg hne]
    have hout2 : out = pre ++ (activeProfileText ++ (P ++ post)) := by
      rw [hout]; simp only [List.append_assoc]
    have hfound : findProfileSubmatch out = some P := by
      rw [hout2]
      apply findProfileSubmatch_first pre _ P hhere
      intro pre1 s1 heq hlen
      cases hm : matchProfileHere s1 with
      | none => rfl
      | some profile =>
        obtain ⟨c, post1, hdec, hc⟩ := matchProfileHere_some s1 profile hm
        have hle := hfirst pre1 c post1
          (by rw [hout2, heq, hdec, List.append_assoc]) hc
        omega
    unfold GetTunedAdmProfile
    simp only [hfound]

theorem GetTunedAdmProfile_result_witness :
    GetTunedAdmProfile
        { out := "No current active profile.\n".toList, err := some "exit status 1".toList } =
        [] ∧
      GetTunedAdmProfile { out := "No current active profile.\n".toList, err := none } = [] ∧
      GetTunedAdmProfile
        { out := "Current active profile: sap-hana.x\n".toList, err := none } =
        "sap-hana".toList :=
  ⟨(GetTunedAdmProfile_result "No current active profile.\n".toList).1 "exit status 1".toList,
   (GetTunedAdmProfile_result "No current active profile.\n".toList).2.1 (by
      rintro ⟨pre, c, post, heq, _⟩
      have hlen := congrArg List.length heq
      simp only [List.length_append, List.length_cons] at hlen
      have h1 : "No current active profile.\n".toList.length = 27 := by decide
      have h2 : "Current active profile: ".toList.length = 24 := by decide
      rw [h1, h2] at hlen
      have hpre : pre.length ≤ 2 := by omega
      have hdrop := congrArg (fun l => (l.drop pre.length).take 24) heq
      simp only [List.append_assoc, List.drop_left, List.take_left'] at hdrop
      rw [List.take_left' h2] at hdrop
      generalize pre.length = n at hpre hdrop
      interval_cases n <;> revert hdrop <;> decide),
   (GetTunedAdmProfile_result "Current active profile: sap-hana.x\n".toList).2.2
      [] "sap-hana".toList ".x\n".toList
      (by decide) (by decide) (by decide) (by decide)
      (fun _ _ _ _ _ => Nat.zero_le _)⟩

/-- The match that starts leftmost decides: a first `Current active profile: `
followed by a line end is passed over; the group ends before the dot. -/
theorem GetTunedAdmProfile_second_line :
    GetTunedAdmProfile
        { out := "Current active profile: \nCurrent active profile: sap-hana.x\n".toList,
          err := none } = "sap-hana".toList := by
  decide

end Saptune
